import Mathlib

/-!
Verification development for the Luzia deep-research backend.

The definitions below are shallow embeddings of the Python functions in
`src/backend/src`: pure string manipulation is translated to functions over
`List Char` / `String`, the OpenAI client is abstracted as an oracle function
passed in as a parameter, and fallible code is modelled with `Except`.
Machine floats only occur in the cosine-similarity computation, which is
modelled over the reals with an explicit `⊤` value standing for IEEE NaN
(the only float subtlety any claim depends on).
-/

/-! ### Python string primitives -/

/-- Python whitespace (`\s` over the ASCII range): the character class used by
`str.strip()`, `str.split()` and the `re` patterns in `chunking.py`. -/
def isPySpace (c : Char) : Bool :=
  c = ' ' || c = '\t' || c = '\n' || c = '\r' || c = '\x0b' || c = '\x0c'

/-- Strip characters satisfying `p` from both ends of a list, like Python
`str.strip(chars)`. -/
def stripBoth (p : Char → Bool) (l : List Char) : List Char :=
  ((l.dropWhile p).reverse.dropWhile p).reverse

/-- `str.strip()` on the underlying character list. -/
def pyStripList (l : List Char) : List Char := stripBoth isPySpace l

/-- Python `str.strip()`. -/
def pyStrip (s : String) : String := String.mk (pyStripList s.data)

/-- Python `str.lower()` (ASCII case folding, which covers every string the
code compares). -/
def pyLower (s : String) : String := String.mk (s.data.map Char.toLower)

/-- `startsList l pre` is Python `l.startswith(pre)` on character lists. -/
def startsList : List Char → List Char → Bool
  | _, [] => true
  | [], _ :: _ => false
  | c :: cs, d :: ds => c = d && startsList cs ds

/-- `containsSub sub s` is Python `sub in s` on character lists. -/
def containsSub (sub : List Char) : List Char → Bool
  | [] => sub.isEmpty
  | c :: rest => startsList (c :: rest) sub || containsSub sub rest

/-- Python `s.split(sep)` for a single-character separator: keeps empty
pieces, so the result is always non-empty. -/
def splitOnCharGo (sep : Char) : List Char → List Char → List (List Char)
  | [], acc => [acc.reverse]
  | c :: rest, acc =>
    if c = sep then acc.reverse :: splitOnCharGo sep rest []
    else splitOnCharGo sep rest (c :: acc)

/-- Python `s.split(sep)` for a one-character separator string. -/
def pySplitChar (sep : Char) (s : String) : List String :=
  (splitOnCharGo sep s.data []).map String.mk

/-! ### Config (src/backend/src/config.py, default values) -/

namespace Config

/-- `CHUNK_SIZE = int(os.getenv("CHUNK_SIZE", "1000"))`. -/
def CHUNK_SIZE : ℕ := 1000

/-- `MIN_CHUNK_LENGTH = int(os.getenv("MIN_CHUNK_LENGTH", "100"))`. -/
def MIN_CHUNK_LENGTH : ℕ := 100

/-- `MAX_INPUT_TOKENS = int(os.getenv("MAX_INPUT_TOKENS", "128000"))`. -/
def MAX_INPUT_TOKENS : ℕ := 128000

end Config

/-! ### Chunker (src/backend/src/utils/chunking.py) -/

/-- One maximal-whitespace-run collapse step: embeds
`re.sub(r'\s+', ' ', text)` — every run of whitespace becomes one `' '`. -/
def collapseWs : List Char → List Char
  | [] => []
  | [c] => if isPySpace c then [' '] else [c]
  | c :: d :: rest =>
    if isPySpace c && isPySpace d then collapseWs (d :: rest)
    else (if isPySpace c then ' ' else c) :: collapseWs (d :: rest)

/-- `re.sub(r'\s+', ' ', text).strip()` from `split_text_into_chunks`. -/
def normalizeText (s : String) : String := String.mk (pyStripList (collapseWs s.data))

/-- Sentence-ending punctuation recognised by the `(?<=[.!?])` lookbehind. -/
def isSentEnd (c : Char) : Bool := c = '.' || c = '!' || c = '?'

/-- Whether a list starts with a whitespace character. -/
def firstIsSpace : List Char → Bool
  | [] => false
  | c :: _ => isPySpace c

/-- Embeds `re.split(r'(?<=[.!?])\s+', text)`: a split point is a whitespace
run immediately after `.`, `!` or `?`; the run is consumed.  The Boolean flag
is true while consuming the whitespace run of a split point. -/
def goSent : List Char → Bool → List Char → List (List Char)
  | [], inGap, acc => if inGap then [[]] else [acc.reverse]
  | c :: rest, inGap, acc =>
    if inGap && isPySpace c then goSent rest true acc
    else if isSentEnd c && firstIsSpace rest then
      (acc.reverse ++ [c]) :: goSent rest true []
    else goSent rest false (c :: acc)

/-- The sentence list of `split_text_into_chunks` (applied to the already
normalized text). -/
def sentencesOf (t : String) : List String := (goSent t.data false []).map String.mk

/-- Python `str.split()` with no argument: split on whitespace runs,
discarding empty pieces. -/
def pyWordsGo : List Char → List Char → List (List Char)
  | [], acc => if acc.isEmpty then [] else [acc.reverse]
  | c :: rest, acc =>
    if isPySpace c then
      if acc.isEmpty then pyWordsGo rest [] else acc.reverse :: pyWordsGo rest []
    else pyWordsGo rest (c :: acc)

/-- Python `sentence.split()`. -/
def pyWords (l : List Char) : List (List Char) := pyWordsGo l []

/-- `' '.join(words)` for word lists. -/
def joinWords (ws : List (List Char)) : String := String.intercalate " " (ws.map String.mk)

/-- `' '.join(current_chunk)` for sentence lists. -/
def joinSpace (ss : List String) : String := String.intercalate " " ss

/-- The word-level greedy packing loop of `split_text_into_chunks`, used for a
single sentence longer than `chunk_size`; carries `temp_chunk` (in order) and
`temp_length`, and emits `' '.join(temp_chunk)` whenever adding the next word
would overflow, plus the final `temp_chunk` if non-empty. -/
def packGo (chunkSize : ℕ) : List (List Char) → List (List Char) → ℕ → List String
  | [], temp, _ => if temp.isEmpty then [] else [joinWords temp]
  | w :: rest, temp, tempLen =>
    let wl := w.length + 1
    if tempLen + wl > chunkSize then
      (if temp.isEmpty then [] else [joinWords temp]) ++ packGo chunkSize rest [w] wl
    else packGo chunkSize rest (temp ++ [w]) (tempLen + wl)

/-- Word packing of one over-long sentence, starting from an empty
`temp_chunk`. -/
def packWordsAll (chunkSize : ℕ) (sentence : String) : List String :=
  packGo chunkSize (pyWords sentence.data) [] 0

/-- The sentence-accumulation loop of `split_text_into_chunks`: carries
`current_chunk` (sentences, in order) and `current_length`, and produces the
`chunks` list in emission order, including the final
`if current_chunk: chunks.append(' '.join(current_chunk))`. -/
def chunkLoop (chunkSize : ℕ) : List String → List String → ℕ → List String
  | [], current, _ => if current.isEmpty then [] else [joinSpace current]
  | s :: rest, current, curLen =>
    let sentenceLength := s.length
    if sentenceLength > chunkSize then
      (if current.isEmpty then [] else [joinSpace current])
        ++ packWordsAll chunkSize s ++ chunkLoop chunkSize rest [] 0
    else if curLen + sentenceLength > chunkSize then
      joinSpace current :: chunkLoop chunkSize rest [s] sentenceLength
    else chunkLoop chunkSize rest (current ++ [s]) (curLen + sentenceLength)

/-- `split_text_into_chunks(text, chunk_size)` from
src/backend/src/utils/chunking.py. -/
def split_text_into_chunks (text : String) (chunkSize : ℕ) : List String :=
  chunkLoop chunkSize (sentencesOf (normalizeText text)) [] 0

/-- A content dictionary `{title, content, url}`: both the source documents
fed to `ContentProcessor.process_contents` and the chunk dictionaries it
emits have this shape. -/
structure SourceDoc where
  title : String
  content : String
  url : String
deriving DecidableEq

/-- `ContentProcessor.process_contents`: skip documents with falsy content,
chunk the rest, and keep only chunks whose stripped length reaches
`min_chunk_length`. -/
def process_contents (chunkSize minChunkLength : ℕ) (contents : List SourceDoc) : List SourceDoc :=
  contents.flatMap fun doc =>
    if doc.content = "" then []
    else
      ((split_text_into_chunks doc.content chunkSize).filter
        (fun ch => decide (minChunkLength ≤ (pyStrip ch).length))).map
        (fun ch => { title := doc.title, content := ch, url := doc.url })

/-! ### AI service (src/backend/src/services/ai_service.py) -/

/-- The fixed three-line record `AIService._build_context` formats for each
chunk: `f"Source: {chunk['url']}\nTitle: {chunk['title']}\nContent: {chunk['content']}\n"`. -/
def chunkText (c : SourceDoc) : String :=
  "Source: " ++ c.url ++ "\nTitle: " ++ c.title ++ "\nContent: " ++ c.content ++ "\n"

/-- `max_available_tokens = Config.MAX_INPUT_TOKENS - system_prompt_tokens - 1000`
with `system_prompt_tokens = 100`. -/
def maxAvailableTokens : ℕ := Config.MAX_INPUT_TOKENS - 100 - 1000

/-- The chunk loop of `AIService._build_context`: accumulate formatted chunk
records, estimating each at `len(chunk_text) // 4` tokens, and `break` at the
first chunk whose inclusion would push the running total past
`max_available_tokens`. -/
def buildContextGo : List SourceDoc → ℕ → List String
  | [], _ => []
  | c :: rest, totalTokens =>
    let t := chunkText c
    let chunkTokens := t.length / 4
    if totalTokens + chunkTokens > maxAvailableTokens then []
    else t :: buildContextGo rest (totalTokens + chunkTokens)

/-- The `context_parts` list built by `AIService._build_context`. -/
def buildContextParts (chunks : List SourceDoc) : List String := buildContextGo chunks 0

/-- `AIService._build_context`: `"\n".join(context_parts)`. -/
def build_context (chunks : List SourceDoc) : String :=
  String.intercalate "\n" (buildContextParts chunks)

/-- The number of chunks `_build_context` includes before breaking, starting
from running total `total`: the instrumented counterpart of `buildContextGo`. -/
def buildContextCount : List SourceDoc → ℕ → ℕ
  | [], _ => 0
  | c :: rest, total =>
    let ct := (chunkText c).length / 4
    if total + ct > maxAvailableTokens then 0
    else buildContextCount rest (total + ct) + 1

/-- Total estimated token count (`len(chunk_text) // 4` per chunk) of a chunk
list, as `_build_context` estimates it. -/
def contextTokens (chunks : List SourceDoc) : ℕ :=
  (chunks.map (fun c => (chunkText c).length / 4)).sum

/-- Squared Euclidean norm of a vector, so that `np.linalg.norm a` is
`Real.sqrt (normSq a)`. -/
def normSq (a : List ℚ) : ℚ := (a.map (fun x => x * x)).sum

/-- `np.dot` on equal-length vectors. -/
def dotProduct (a b : List ℚ) : ℚ := (List.zipWith (fun x y => x * y) a b).sum

/-- `AIService._cosine_similarity`: `np.dot(a, b) / (np.linalg.norm(a) * np.linalg.norm(b))`
over the reals.  The source has no guard: when the denominator is zero the
float division is `0.0 / 0.0`, which is IEEE NaN; the `if` below is not in the
source but encodes exactly that float semantics, with `⊤ : WithTop ℝ`
standing for NaN (`np.argsort` orders NaN after every number, which the
`WithTop` order mirrors). -/
noncomputable def cosine_similarity (a b : List ℚ) : WithTop ℝ :=
  let na : ℝ := Real.sqrt ((normSq a : ℚ) : ℝ)
  let nb : ℝ := Real.sqrt ((normSq b : ℚ) : ℝ)
  if na * nb = 0 then (⊤ : WithTop ℝ)
  else (((((dotProduct a b : ℚ) : ℝ) / (na * nb) : ℝ)) : WithTop ℝ)

/-- `AIService._get_all_embeddings`: one `_get_embedding` call per input
text, results re-ordered back to input order (so, as a pure function of a
total embedding oracle, it is just `map`). -/
def get_all_embeddings (embed : String → List ℚ) (texts : List String) : List (List ℚ) :=
  texts.map embed

/-- Number of `_get_embedding` provider calls `_get_all_embeddings` issues:
exactly one per input text. -/
def getAllEmbeddingsCalls (texts : List String) : ℕ := texts.length

/-- The comparison used to model `np.argsort`: ascending similarity, with
ties determinized by ascending original index.  NumPy's default
`kind='quicksort'` (introsort) is documented as *not* stable, so a real run
only guarantees the ascending-similarity part; the index tie-break here is
one concrete determinization of the implementation-defined tie order.  It
coincides with NumPy's actual behaviour on arrays below the 16-element
insertion-sort cutoff of introsort (as in the tie counterexample below);
the theorem about general inputs uses only the tie-order-independent
consequences (sortedness and being a permutation). -/
def sortKeyRel (s : List (WithTop ℝ)) (i j : Fin s.length) : Prop :=
  s.get i < s.get j ∨ (s.get i = s.get j ∧ i ≤ j)

noncomputable instance (s : List (WithTop ℝ)) : DecidableRel (sortKeyRel s) :=
  Classical.decRel _

instance (s : List (WithTop ℝ)) : IsTotal (Fin s.length) (sortKeyRel s) where
  total i j := by
    rcases lt_trichotomy (s.get i) (s.get j) with h | h | h
    · exact Or.inl (Or.inl h)
    · rcases le_total i j with hij | hij
      · exact Or.inl (Or.inr ⟨h, hij⟩)
      · exact Or.inr (Or.inr ⟨h.symm, hij⟩)
    · exact Or.inr (Or.inl h)

instance (s : List (WithTop ℝ)) : IsTrans (Fin s.length) (sortKeyRel s) where
  trans i j k hij hjk := by
    rcases hij with hij | ⟨hij, hij'⟩
    · rcases hjk with hjk | ⟨hjk, _⟩
      · exact Or.inl (hij.trans hjk)
      · exact Or.inl (hjk ▸ hij)
    · rcases hjk with hjk | ⟨hjk, hjk'⟩
      · exact Or.inl (hij ▸ hjk)
      · exact Or.inr ⟨hij.trans hjk, hij'.trans hjk'⟩

/-- `np.argsort(similarities)`: an index permutation sorting the
similarities ascending.  The order within a tied run is
implementation-defined in NumPy (unstable quicksort); this model
determinizes it by original index, which is exact for arrays below NumPy's
16-element insertion-sort cutoff. -/
noncomputable def argsortAsc (s : List (WithTop ℝ)) : List (Fin s.length) :=
  List.insertionSort (sortKeyRel s) (List.finRange s.length)

/-- The similarity list computed inside `_rerank_chunks_with_embeddings`:
embed `[query] + chunk_texts`, split off the query embedding
(`all_embeddings[0]`, modelled as `headI` of the always-non-empty list), and
take the cosine similarity of each chunk embedding against it. -/
noncomputable def simsOf (embed : String → List ℚ) (query : String)
    (chunks : List SourceDoc) : List (WithTop ℝ) :=
  let allTexts := query :: chunks.map (fun c => c.content)
  let allEmbeddings := get_all_embeddings embed allTexts
  allEmbeddings.tail.map (cosine_similarity allEmbeddings.headI)

/-- `ranked_indices = np.argsort(similarities)[::-1]`. -/
noncomputable def rerankIndices (embed : String → List ℚ) (query : String)
    (chunks : List SourceDoc) : List (Fin (simsOf embed query chunks).length) :=
  (argsortAsc (simsOf embed query chunks)).reverse

/-- `AIService._rerank_chunks_with_embeddings`:
`ranked_chunks = [chunks[i] for i in ranked_indices]` (every index is in
range, so the `getD` default is never used). -/
noncomputable def rerank_chunks_with_embeddings (embed : String → List ℚ) (query : String)
    (chunks : List SourceDoc) : List SourceDoc :=
  (rerankIndices embed query chunks).map (fun i => chunks.getD i.val ⟨"", "", ""⟩)

/-- Number of `_get_embedding` provider calls `_rerank_chunks_with_embeddings`
issues: one per element of `[query] + chunk_texts`. -/
def rerankEmbedCalls (query : String) (chunks : List SourceDoc) : ℕ :=
  getAllEmbeddingsCalls (query :: chunks.map (fun c => c.content))

/-- The `RetryError` that `tenacity` raises once `stop_after_attempt(3)` is
exhausted; it carries the last attempt's exception. -/
structure RetryError where
  lastAttempt : String
deriving DecidableEq

/-- The `@retry(stop=stop_after_attempt(3), wait=wait_exponential(...))`
combinator on an attempt-indexed call oracle: return the first successful
attempt among 1, 2, 3; if all three raise, raise `RetryError` wrapping the
third attempt's exception. -/
def retryStop3 (call : ℕ → Except String String) : Except RetryError String :=
  match call 1 with
  | .ok a => .ok a
  | .error _ =>
    match call 2 with
    | .ok a => .ok a
    | .error _ =>
      match call 3 with
      | .ok a => .ok a
      | .error e => .error ⟨e⟩

/-- How many times `retryStop3` invokes the underlying call: attempt `k + 1`
happens exactly when attempt `k` raised. -/
def retryCallCount (call : ℕ → Except String String) : ℕ :=
  match call 1 with
  | .ok _ => 1
  | .error _ =>
    match call 2 with
    | .ok _ => 2
    | .error _ => 3

/-- `AIService._generate_with_gpt4`: a single chat-completion call (the
oracle) wrapped in the 3-attempt retry decorator; the body re-raises any
exception unchanged. -/
def generate_with_gpt4 (call : ℕ → Except String String) : Except RetryError String :=
  retryStop3 call

/-! ### Research planner (src/backend/src/services/research_planner.py) -/

/-- `query[query.find('.') + 1:]`: everything after the first `'.'`, or the
whole string when there is none (`find` returns `-1`, and `-1 + 1 = 0`). -/
def pyAfterDot (l : List Char) : List Char :=
  if '.' ∈ l then (l.dropWhile (fun c => c ≠ '.')).drop 1 else l

/-- `'['` or `']'`, the character set of `query.strip('[]')`. -/
def isBracket (c : Char) : Bool := c = '[' || c = ']'

/-- The stripped non-empty lines `_parse_research_plan` iterates over:
`[line.strip() for line in plan.split('\n') if line.strip()]`. -/
def planLines (plan : String) : List String :=
  ((pySplitChar '\n' plan).map pyStrip).filter (fun l => l ≠ "")

/-- One iteration of the `_parse_research_plan` loop.  `.ok none` means the
line was skipped (header, or empty after stripping), `.ok (some q)` means `q`
is appended, and `.error ()` models the `IndexError` that `query[0]` would
raise on an empty string. -/
def processLineChecked (line : String) : Except Unit (Option String) :=
  if startsList (pyLower line).data "# research plan".data then .ok none
  else
    let query := pyStrip line
    match query.data with
    | [] => .error ()
    | c :: _ =>
      let query1 := if c.isDigit then pyStrip (String.mk (pyAfterDot query.data)) else query
      let query2 := String.mk (stripBoth isBracket query1.data)
      .ok (if query2 ≠ "" then some query2 else none)

/-- The total value of one loop iteration (justified by the theorem that the
`.error` case is unreachable on the lines the loop actually visits). -/
def processLine (line : String) : Option String :=
  match processLineChecked line with
  | .ok o => o
  | .error _ => none

/-- `mapM` over `Except`, mirroring a Python loop that stops at the first
raised exception. -/
def exceptMapM {ε α β : Type} (f : α → Except ε β) : List α → Except ε (List β)
  | [] => .ok []
  | a :: l =>
    match f a with
    | .error e => .error e
    | .ok b =>
      match exceptMapM f l with
      | .error e => .error e
      | .ok bs => .ok (b :: bs)

/-- `ResearchPlanner._parse_research_plan` with the `query[0]` indexing
modelled as fallible. -/
def parse_research_plan_checked (plan : String) : Except Unit (List String) :=
  match exceptMapM processLineChecked (planLines plan) with
  | .error e => .error e
  | .ok opts => .ok (opts.filterMap id)

/-- `ResearchPlanner._parse_research_plan` as the total function it in fact
is: the ordered list of queries surviving the header/numbering/bracket
stripping. -/
def parse_research_plan (plan : String) : List String :=
  (planLines plan).filterMap processLine

/-- `ResearchPlanner.generate_research_plan`, as a function of the planner
model's response text: parse, then `search_queries[:self.max_questions]`. -/
def generate_research_plan (response : String) (maxQuestions : ℕ) : List String :=
  (parse_research_plan response).take maxQuestions

/-! ### Pro research service (src/backend/src/services/pro_research_service.py) -/

/-- A sub-report `{"query": ..., "content": ...}`. -/
structure SubReport where
  query : String
  content : String
deriving DecidableEq

/-- The per-report section of `_prepare_compilation_content`: the first three
`'.'`-separated pieces of the content re-joined with `'. '` plus a trailing
`'.'`, under a `Query {i}: ...\nKey Findings: ...\n` header. -/
def reportSection (i : ℕ) (r : SubReport) : String :=
  let content := String.intercalate ". " ((pySplitChar '.' r.content).take 3) ++ "."
  "Query " ++ toString i ++ ": " ++ r.query ++ "\nKey Findings: " ++ content ++ "\n"

/-- `ProResearchService._prepare_compilation_content`. -/
def prepare_compilation_content (mainQuery : String) (reports : List SubReport)
    (currentDate : String) : String :=
  let sections := reports.enum.map (fun p => reportSection (p.1 + 1) p.2)
  let allFindings := String.intercalate "\n" sections
  "As an expert research analyst, synthesize these findings into a comprehensive report.\n\nMain Query: "
    ++ mainQuery ++ "\nDate: " ++ currentDate ++ "\n\nResearch Findings:\n" ++ allFindings
    ++ "\n\nCreate a concise yet comprehensive report that:\n1. Directly answers the main query\n2. Synthesizes key insights from all research\n3. Maintains academic tone\n4. References specific findings (as Query X)\n5. Notes current as of "
    ++ currentDate ++ "\n\nReport:"

/-- `ProResearchService._generate_compilation` over a chat-completion oracle:
returns the model text stripped, and re-raises any provider error. -/
def generate_compilation (gen : String → Except String String) (content : String) :
    Except String String :=
  match gen content with
  | .ok r => .ok (pyStrip r)
  | .error e => .error e

/-- The summarization prompt built inside `_summarize_reports`. -/
def summaryPrompt (r : SubReport) : String :=
  "Summarize the following research findings in a concise way while preserving key information:\n\n"
    ++ r.content ++ "\n\nSummary:"

/-- One `summarize_report` task: same query, summarized (stripped) content;
provider errors re-raise. -/
def summarizeOne (chat : String → Except String String) (r : SubReport) :
    Except String SubReport :=
  match chat (summaryPrompt r) with
  | .ok s => .ok { query := r.query, content := pyStrip s }
  | .error e => .error e

/-- `ProResearchService._summarize_reports`: summarize every sub-report
(gathered; any failure fails the whole call). -/
def summarize_reports (chat : String → Except String String) (reports : List SubReport) :
    Except String (List SubReport) :=
  exceptMapM (summarizeOne chat) reports

/-- The context-length test of `_compile_final_report`:
`"maximum context length" in str(e).lower()`. -/
def isContextLengthError (e : String) : Bool :=
  containsSub "maximum context length".data (pyLower e).data

/-- `ProResearchService._compile_final_report`: try compiling the full
content; on an error whose text contains "maximum context length"
(case-insensitively), summarize every sub-report and retry once on the
summarized content; all other errors (including any error on the retry path)
propagate.  `gen` is the `_generate_compilation` chat oracle and `chat` the
summarization chat oracle. -/
def compile_final_report (gen : String → Except String String)
    (chat : String → Except String String) (mainQuery : String)
    (subReports : List SubReport) (currentDate : String) : Except String String :=
  let fullContent := prepare_compilation_content mainQuery subReports currentDate
  match generate_compilation gen fullContent with
  | .ok r => .ok r
  | .error e =>
    if isContextLengthError e then
      match summarize_reports chat subReports with
      | .ok summarized =>
        generate_compilation gen (prepare_compilation_content mainQuery summarized currentDate)
      | .error e2 => .error e2
    else .error e

/-- How many `_generate_compilation` calls `_compile_final_report` makes. -/
def compileGenCalls (gen : String → Except String String)
    (chat : String → Except String String) (mainQuery : String)
    (subReports : List SubReport) (currentDate : String) : ℕ :=
  match generate_compilation gen (prepare_compilation_content mainQuery subReports currentDate) with
  | .ok _ => 1
  | .error e =>
    if isContextLengthError e then
      match summarize_reports chat subReports with
      | .ok _ => 2
      | .error _ => 1
    else 1

/-- Whether `_compile_final_report` enters the summarize-and-retry branch. -/
def compileSummarizeInvoked (gen : String → Except String String) (mainQuery : String)
    (subReports : List SubReport) (currentDate : String) : Bool :=
  match generate_compilation gen (prepare_compilation_content mainQuery subReports currentDate) with
  | .ok _ => false
  | .error e => isContextLengthError e

/-! ### Concrete oracles and inputs used in witness/counterexample theorems -/

/-- A call oracle that fails twice and succeeds on the third attempt. -/
def retryTestCall : ℕ → Except String String :=
  fun n => if n = 3 then .ok "report" else .error "transient"

/-- A compilation oracle that always fails with a context-length error. -/
def genCtxFail : String → Except String String :=
  fun _ => .error "Maximum context length exceeded"

/-- A summarization chat oracle that always succeeds. -/
def chatOkSum : String → Except String String := fun _ => .ok "sum"

/-- A one-element sub-report list. -/
def subReports0 : List SubReport := [⟨"q1", "c1"⟩]

/-- A constant embedding oracle: every text maps to the vector `[1]`, so all
similarities tie. -/
def embedConst : String → List ℚ := fun _ => [1]

/-- Two distinct chunks used to exhibit tie-breaking. -/
def docA : SourceDoc := ⟨"", "a", ""⟩

/-- Second of the two distinct chunks used to exhibit tie-breaking. -/
def docB : SourceDoc := ⟨"", "b", ""⟩

/-! ### Helper lemmas: stripping -/

theorem dropWhile_dropWhile_eq (p : Char → Bool) (l : List Char) :
    List.dropWhile p (List.dropWhile p l) = List.dropWhile p l := by
  induction l with
  | nil => simp
  | cons c t ih =>
    cases hc : p c with
    | true => simpa [List.dropWhile_cons, hc] using ih
    | false => simp [List.dropWhile_cons, hc]

theorem dropWhile_head_false (p : Char → Bool) (l : List Char) {c : Char} {t : List Char}
    (h : List.dropWhile p l = c :: t) : p c = false := by
  have := List.head?_dropWhile_not p l
  rw [h] at this
  simpa using this

theorem stripBoth_idem (p : Char → Bool) (l : List Char) :
    stripBoth p (stripBoth p l) = stripBoth p l := by
  set A := List.dropWhile p l with hA
  set S := List.dropWhile p A.reverse with hS
  have hsuf : ∃ u, u ++ S = A.reverse := List.dropWhile_suffix p
  obtain ⟨u, hu⟩ := hsuf
  have hAeq : A = S.reverse ++ u.reverse := by
    have := congrArg List.reverse hu
    simpa using this.symm
  have hB : stripBoth p l = S.reverse := by
    simp [stripBoth, ← hA, ← hS]
  rw [hB]
  have h1 : List.dropWhile p S.reverse = S.reverse := by
    cases hSr : S.reverse with
    | nil => simp
    | cons b bt =>
      have hAcons : A = b :: (bt ++ u.reverse) := by rw [hAeq, hSr]; simp
      have hb : p b = false := dropWhile_head_false p l (by rw [← hA]; exact hAcons)
      simp [List.dropWhile_cons, hb]
  have h2 : List.dropWhile p S.reverse.reverse = S.reverse.reverse := by
    simp only [List.reverse_reverse]
    rw [hS]
    exact dropWhile_dropWhile_eq p A.reverse
  simp only [stripBoth, h1, h2]
  simp

theorem pyStrip_idem (s : String) : pyStrip (pyStrip s) = pyStrip s := by
  simp [pyStrip, pyStripList, stripBoth_idem]

theorem stripBoth_length_le (p : Char → Bool) (l : List Char) :
    (stripBoth p l).length ≤ l.length := by
  have h1 : (List.dropWhile p l).length ≤ l.length := (List.dropWhile_sublist p).length_le
  have h2 : (List.dropWhile p (List.dropWhile p l).reverse).length
      ≤ (List.dropWhile p l).reverse.length := (List.dropWhile_sublist p).length_le
  simp only [stripBoth, List.length_reverse]
  simp only [List.length_reverse] at h2
  exact h2.trans h1

theorem string_ne_empty_of_data_ne_nil {s : String} (h : s.data ≠ []) : s ≠ "" := by
  intro he
  subst he
  exact h rfl

theorem string_eq_empty_of_data_nil {s : String} (h : s.data = []) : s = "" := by
  cases s with
  | mk d => cases h; rfl

/-! ### Helper lemmas: research-plan parsing -/

theorem exceptMapM_ok {ε α β : Type} (f : α → Except ε β) (g : α → β) :
    ∀ l : List α, (∀ a ∈ l, f a = .ok (g a)) → exceptMapM f l = .ok (l.map g)
  | [], _ => rfl
  | a :: l, h => by
    have ha := h a (List.mem_cons_self a l)
    have ih := exceptMapM_ok f g l (fun x hx => h x (List.mem_cons_of_mem a hx))
    simp [exceptMapM, ha, ih]

theorem planLines_stripped {plan line : String} (h : line ∈ planLines plan) :
    pyStrip line = line ∧ line ≠ "" := by
  simp only [planLines, List.mem_filter, List.mem_map] at h
  obtain ⟨⟨raw, _, hraw⟩, hne⟩ := h
  refine ⟨?_, by simpa using hne⟩
  rw [← hraw]
  exact pyStrip_idem raw

theorem processLineChecked_ok (line : String) (h1 : pyStrip line = line) (h2 : line ≠ "") :
    processLineChecked line = .ok (processLine line) := by
  cases hc : processLineChecked line with
  | ok o => simp [processLine, hc]
  | error e =>
    exfalso
    unfold processLineChecked at hc
    split at hc
    · exact Except.noConfusion hc
    · rw [h1] at hc
      cases hd : line.data with
      | nil => exact h2 (string_eq_empty_of_data_nil hd)
      | cons c cs => simp [hd] at hc

theorem processLine_some {line q : String} (h : processLine line = some q) : q ≠ "" := by
  unfold processLine processLineChecked at h
  split at h
  · rename_i o heq
    split at heq
    · cases heq
      exact Option.noConfusion h
    · cases hd : (pyStrip line).data with
      | nil => simp [hd] at heq
      | cons c cs =>
        simp only [hd] at heq
        cases heq
        split at h
        · split at h
          · rename_i hne
            exact (Option.some.inj h) ▸ hne
          · exact Option.noConfusion h
        · split at h
          · rename_i hne
            exact (Option.some.inj h) ▸ hne
          · exact Option.noConfusion h
  · exact Option.noConfusion h

/-- C10: `ResearchPlanner._parse_research_plan` is total — the checked
variant (with `query[0]` modelled as fallible) never errors, because blank
lines and all-whitespace lines are filtered out (and stripping is idempotent)
before the first-character digit test, so the indexing is always in range;
and every returned entry is a non-empty string, entries that become empty
after stripping numbering and brackets being dropped. -/
theorem parse_research_plan_total (plan : String) :
    parse_research_plan_checked plan = .ok (parse_research_plan plan) ∧
    ∀ q ∈ parse_research_plan plan, q ≠ "" := by
  constructor
  · have hok : ∀ l ∈ planLines plan, processLineChecked l = .ok (processLine l) := by
      intro l hl
      obtain ⟨h1, h2⟩ := planLines_stripped hl
      exact processLineChecked_ok l h1 h2
    unfold parse_research_plan_checked
    rw [exceptMapM_ok processLineChecked processLine (planLines plan) hok]
    simp [parse_research_plan, List.filterMap_map, Function.comp]
  · intro q hq
    obtain ⟨line, _, hsome⟩ := List.mem_filterMap.mp hq
    exact processLine_some hsome

/-- Witness for C10 at a concrete planner response: parsing
`"# Research Plan\n1. [alpha]"` succeeds without an index error and the
parsed entry `"alpha"` is non-empty. -/
theorem parse_research_plan_total_witness :
    parse_research_plan_checked "# Research Plan\n1. [alpha]"
        = .ok (parse_research_plan "# Research Plan\n1. [alpha]") ∧
    "alpha" ∈ parse_research_plan "# Research Plan\n1. [alpha]" ∧
    "alpha" ≠ "" := by
  refine ⟨(parse_research_plan_total "# Research Plan\n1. [alpha]").1, by decide, ?_⟩
  exact (parse_research_plan_total "# Research Plan\n1. [alpha]").2 "alpha" (by decide)

/-- C4: `ResearchPlanner.generate_research_plan` returns at most
`max_questions` sub-queries, and when the parsed planner response has more
entries than `max_questions`, the result is exactly the first
`max_questions` parsed entries in their original order. -/
theorem generate_research_plan_truncates (response : String) (maxQuestions : ℕ) :
    (generate_research_plan response maxQuestions).length ≤ maxQuestions ∧
    (maxQuestions < (parse_research_plan response).length →
      generate_research_plan response maxQuestions
          = (parse_research_plan response).take maxQuestions ∧
      (generate_research_plan response maxQuestions).length = maxQuestions) := by
  refine ⟨?_, fun h => ⟨rfl, ?_⟩⟩
  · simp only [generate_research_plan, List.length_take]
    omega
  · simp only [generate_research_plan, List.length_take]
    omega

/-- Witness for C4: a planner response with three numbered items truncated to
`max_questions = 2`. -/
theorem generate_research_plan_truncates_witness :
    (generate_research_plan "1. alpha\n2. beta\n3. gamma" 2).length ≤ 2 ∧
    generate_research_plan "1. alpha\n2. beta\n3. gamma" 2
        = (parse_research_plan "1. alpha\n2. beta\n3. gamma").take 2 ∧
    (generate_research_plan "1. alpha\n2. beta\n3. gamma" 2).length = 2 := by
  refine ⟨(generate_research_plan_truncates "1. alpha\n2. beta\n3. gamma" 2).1, ?_, ?_⟩
  · exact ((generate_research_plan_truncates "1. alpha\n2. beta\n3. gamma" 2).2 (by decide)).1
  · exact ((generate_research_plan_truncates "1. alpha\n2. beta\n3. gamma" 2).2 (by decide)).2

/-! ### Helper lemmas: context assembly -/

theorem contextTokens_nil : contextTokens [] = 0 := rfl

theorem contextTokens_cons (c : SourceDoc) (l : List SourceDoc) :
    contextTokens (c :: l) = (chunkText c).length / 4 + contextTokens l := by
  simp [contextTokens]

theorem buildContextGo_eq_take (l : List SourceDoc) (total : ℕ) :
    buildContextGo l total = (l.take (buildContextCount l total)).map chunkText := by
  induction l generalizing total with
  | nil => rfl
  | cons c rest ih =>
    by_cases h : total + (chunkText c).length / 4 > maxAvailableTokens
    · simp [buildContextGo, buildContextCount, h]
    · simp [buildContextGo, buildContextCount, h, ih]

theorem buildContextCount_within_budget (l : List SourceDoc) (total : ℕ)
    (h : total ≤ maxAvailableTokens) :
    total + contextTokens (l.take (buildContextCount l total)) ≤ maxAvailableTokens := by
  induction l generalizing total with
  | nil => simpa [buildContextCount] using h
  | cons c rest ih =>
    by_cases hc : total + (chunkText c).length / 4 > maxAvailableTokens
    · simpa [buildContextCount, hc] using h
    · have hle : total + (chunkText c).length / 4 ≤ maxAvailableTokens := le_of_not_lt hc
      have := ih (total + (chunkText c).length / 4) hle
      simp only [buildContextCount, hc, if_false, List.take_succ_cons, contextTokens_cons]
      omega

theorem buildContextCount_maximal (l : List SourceDoc) (total k : ℕ)
    (hk : k ≤ l.length)
    (h : total + contextTokens (l.take k) ≤ maxAvailableTokens) :
    k ≤ buildContextCount l total := by
  induction l generalizing total k with
  | nil =>
    have : k = 0 := by simpa using hk
    simp [this]
  | cons c rest ih =>
    cases k with
    | zero => exact Nat.zero_le _
    | succ k =>
      rw [List.take_succ_cons, contextTokens_cons] at h
      have hc : ¬(total + (chunkText c).length / 4 > maxAvailableTokens) := by omega
      have hk' : k ≤ rest.length := by simpa using hk
      have := ih (total + (chunkText c).length / 4) k hk' (by omega)
      simp only [buildContextCount, hc, if_false]
      omega

/-- C1: `AIService._build_context` includes exactly the longest prefix of the
ranked chunk list whose accumulated estimated token cost
(`len(formatted chunk record) // 4` each) fits within
`MAX_INPUT_TOKENS − 1100`: the parts list is a prefix (`take n` with
`n = buildContextCount chunks 0`), that prefix's cost is within budget, any
prefix fitting the budget is no longer than it (so the first overflowing
chunk and everything after it are dropped while everything before stays
included), and the returned context is the newline join of the included
records. -/
theorem build_context_budget (chunks : List SourceDoc) :
    buildContextParts chunks = (chunks.take (buildContextCount chunks 0)).map chunkText ∧
    contextTokens (chunks.take (buildContextCount chunks 0)) ≤ maxAvailableTokens ∧
    (∀ k, k ≤ chunks.length → contextTokens (chunks.take k) ≤ maxAvailableTokens →
      k ≤ buildContextCount chunks 0) ∧
    maxAvailableTokens + 1100 = Config.MAX_INPUT_TOKENS ∧
    build_context chunks = String.intercalate "\n" (buildContextParts chunks) := by
  refine ⟨buildContextGo_eq_take chunks 0, ?_, ?_, by decide, rfl⟩
  · simpa using buildContextCount_within_budget chunks 0 (Nat.zero_le _)
  · intro k hk hfit
    exact buildContextCount_maximal chunks 0 k hk (by simpa using hfit)

/-- Witness for C1 at a one-chunk list: the parts are the formatted prefix,
that prefix fits the budget, and a fitting prefix length is below the count. -/
theorem build_context_budget_witness :
    buildContextParts [⟨"T", "C", "U"⟩]
        = (([⟨"T", "C", "U"⟩] : List SourceDoc).take
            (buildContextCount [⟨"T", "C", "U"⟩] 0)).map chunkText ∧
    contextTokens (([⟨"T", "C", "U"⟩] : List SourceDoc).take
        (buildContextCount [⟨"T", "C", "U"⟩] 0)) ≤ maxAvailableTokens ∧
    1 ≤ buildContextCount [⟨"T", "C", "U"⟩] 0 := by
  refine ⟨(build_context_budget [⟨"T", "C", "U"⟩]).1,
    (build_context_budget [⟨"T", "C", "U"⟩]).2.1, ?_⟩
  exact (build_context_budget [⟨"T", "C", "U"⟩]).2.2.1 1 (by decide) (by decide)

/-! ### Helper lemmas: chunking -/

theorem collapseWs_all_space : ∀ l : List Char, (∀ c ∈ l, isPySpace c = true) →
    ∀ c ∈ collapseWs l, c = ' '
  | [] => by
    intro _ c hc
    simp [collapseWs] at hc
  | [a] => by
    intro h c hc
    have ha := h a (List.mem_cons_self _ _)
    simpa [collapseWs, ha] using hc
  | a :: b :: rest => by
    intro h c hc
    have ha := h a (List.mem_cons_self _ _)
    have hrest : ∀ x ∈ b :: rest, isPySpace x = true :=
      fun x hx => h x (List.mem_cons_of_mem a hx)
    cases hb : isPySpace b with
    | true =>
      rw [show collapseWs (a :: b :: rest) = collapseWs (b :: rest) by
        simp [collapseWs, ha, hb]] at hc
      exact collapseWs_all_space (b :: rest) hrest c hc
    | false =>
      rw [show collapseWs (a :: b :: rest) = ' ' :: collapseWs (b :: rest) by
        simp [collapseWs, ha, hb]] at hc
      rcases List.mem_cons.mp hc with h1 | h1
      · exact h1
      · exact collapseWs_all_space (b :: rest) hrest c h1

theorem pyStripList_all_space (l : List Char) (h : ∀ c ∈ l, isPySpace c = true) :
    pyStripList l = [] := by
  have h1 : List.dropWhile isPySpace l = [] := List.dropWhile_eq_nil_iff.mpr h
  simp [pyStripList, stripBoth, h1]

theorem normalizeText_all_space (s : String) (h : ∀ c ∈ s.data, isPySpace c = true) :
    normalizeText s = "" := by
  have hc : ∀ c ∈ collapseWs s.data, isPySpace c = true := by
    intro c hcc
    have h3 := collapseWs_all_space s.data h c hcc
    subst h3
    rfl
  have h4 : normalizeText s = String.mk [] := by
    rw [normalizeText, pyStripList_all_space _ hc]
  exact h4.trans rfl

/-- C9 counterexample: `split_text_into_chunks` applied to the empty string
returns the one-element sequence `[""]`, not the empty sequence the claim
states (the empty sentence survives the loop and the final
`if current_chunk:` append emits it). -/
theorem split_text_empty_counterexample :
    split_text_into_chunks "" Config.CHUNK_SIZE = [""] ∧
    ([""] : List String) ≠ ([] : List String) :=
  ⟨rfl, by decide⟩

/-- C9 amended: on empty and whitespace-only input (which normalizes to
empty), `split_text_into_chunks` returns the one-element sequence containing
the empty string; being a total function of its embedding, it never raises. -/
theorem split_text_whitespace_amended (text : String) (chunkSize : ℕ)
    (h : ∀ c ∈ text.data, isPySpace c = true) :
    split_text_into_chunks text chunkSize = [""] := by
  rw [split_text_into_chunks, normalizeText_all_space text h]
  rfl

/-- Witness for the amended C9 at the whitespace-only input `" "`. -/
theorem split_text_whitespace_amended_witness :
    (∀ c ∈ (" " : String).data, isPySpace c = true) ∧
    split_text_into_chunks " " Config.CHUNK_SIZE = [""] :=
  ⟨by decide, split_text_whitespace_amended " " Config.CHUNK_SIZE (by decide)⟩

/-- C5: every chunk dictionary emitted by
`ContentProcessor.process_contents` has content of length at least
`min_chunk_length` (chunks whose stripped length falls below it are dropped),
hence non-empty content whenever `min_chunk_length ≥ 1`. -/
theorem process_contents_min_length (contents : List SourceDoc)
    (chunkSize minChunkLength : ℕ) (hmin : 1 ≤ minChunkLength) :
    ∀ d ∈ process_contents chunkSize minChunkLength contents,
      minChunkLength ≤ d.content.length ∧ d.content ≠ "" := by
  intro d hd
  simp only [process_contents, List.mem_flatMap] at hd
  obtain ⟨doc, _, hmem⟩ := hd
  split at hmem
  · simp at hmem
  · obtain ⟨ch, hch, rfl⟩ := List.mem_map.mp hmem
    obtain ⟨_, hdec⟩ := List.mem_filter.mp hch
    have hlen : minChunkLength ≤ (pyStrip ch).length := of_decide_eq_true hdec
    have hle : (pyStrip ch).length ≤ ch.length := by
      show (pyStripList ch.data).length ≤ ch.data.length
      exact stripBoth_length_le isPySpace ch.data
    refine ⟨le_trans hlen hle, ?_⟩
    intro hempty
    have h1 : 1 ≤ ch.length := le_trans hmin (le_trans hlen hle)
    rw [show ch = "" from hempty] at h1
    simp at h1

/-- Witness for C5 at a one-document list with `min_chunk_length = 1`. -/
theorem process_contents_min_length_witness :
    1 ≤ (1 : ℕ) ∧
    (1 ≤ (SourceDoc.mk "t" "hello" "u").content.length ∧
      (SourceDoc.mk "t" "hello" "u").content ≠ "") :=
  ⟨by decide,
    process_contents_min_length [⟨"t", "hello", "u"⟩] 1000 1 (by decide)
      ⟨"t", "hello", "u"⟩ (by decide)⟩

/-- C3: `AIService._generate_with_gpt4` invokes the generation provider at
most 3 times; a first-attempt success is returned after one call; two
failures followed by a success return that success after exactly three calls
(no fourth attempt); and when all three attempts raise, the result is the
retry error carrying the final attempt's error — never a default or
empty-string result. -/
theorem generate_with_gpt4_retry (call : ℕ → Except String String) :
    retryCallCount call ≤ 3 ∧
    (∀ a, call 1 = .ok a →
      generate_with_gpt4 call = .ok a ∧ retryCallCount call = 1) ∧
    (∀ e1 e2 a, call 1 = .error e1 → call 2 = .error e2 → call 3 = .ok a →
      generate_with_gpt4 call = .ok a ∧ retryCallCount call = 3) ∧
    (∀ e1 e2 e3, call 1 = .error e1 → call 2 = .error e2 → call 3 = .error e3 →
      generate_with_gpt4 call = .error ⟨e3⟩ ∧
      ∀ a, generate_with_gpt4 call ≠ .ok a) := by
  refine ⟨?_, ?_, ?_, ?_⟩
  · unfold retryCallCount
    cases call 1 with
    | ok a => simp
    | error e =>
      cases call 2 with
      | ok a => simp
      | error e => simp
  · intro a h1
    simp [generate_with_gpt4, retryStop3, retryCallCount, h1]
  · intro e1 e2 a h1 h2 h3
    simp [generate_with_gpt4, retryStop3, retryCallCount, h1, h2, h3]
  · intro e1 e2 e3 h1 h2 h3
    simp [generate_with_gpt4, retryStop3, h1, h2, h3]

/-- Witness for C3: two transient failures then a success return the success
after exactly three provider calls. -/
theorem generate_with_gpt4_retry_witness :
    generate_with_gpt4 retryTestCall = .ok "report" ∧
    retryCallCount retryTestCall = 3 ∧ retryCallCount retryTestCall ≤ 3 := by
  have h := (generate_with_gpt4_retry retryTestCall).2.2.1 "transient" "transient" "report"
    rfl rfl rfl
  exact ⟨h.1, h.2, (generate_with_gpt4_retry retryTestCall).1⟩

/-- C2: `ProResearchService._compile_final_report` first attempts compilation
on the full content; exactly when that attempt raises an error containing
"maximum context length" (case-insensitively) it summarizes every sub-report
and retries compilation once on the summarized content (two compilation
calls in total); a non-matching error propagates without summarization, and
any error on the retry path (summarization or second compilation) propagates
to the caller. -/
theorem compile_final_report_degrade (gen chat : String → Except String String)
    (mainQuery : String) (subReports : List SubReport) (currentDate : String) :
    (∀ r, gen (prepare_compilation_content mainQuery subReports currentDate) = .ok r →
      compile_final_report gen chat mainQuery subReports currentDate = .ok (pyStrip r) ∧
      compileGenCalls gen chat mainQuery subReports currentDate = 1 ∧
      compileSummarizeInvoked gen mainQuery subReports currentDate = false) ∧
    (∀ e, gen (prepare_compilation_content mainQuery subReports currentDate) = .error e →
      isContextLengthError e = false →
      compile_final_report gen chat mainQuery subReports currentDate = .error e ∧
      compileGenCalls gen chat mainQuery subReports currentDate = 1 ∧
      compileSummarizeInvoked gen mainQuery subReports currentDate = false) ∧
    (∀ e, gen (prepare_compilation_content mainQuery subReports currentDate) = .error e →
      isContextLengthError e = true →
      compileSummarizeInvoked gen mainQuery subReports currentDate = true ∧
      (∀ e2, summarize_reports chat subReports = .error e2 →
        compile_final_report gen chat mainQuery subReports currentDate = .error e2) ∧
      (∀ srs, summarize_reports chat subReports = .ok srs →
        compile_final_report gen chat mainQuery subReports currentDate
            = generate_compilation gen (prepare_compilation_content mainQuery srs currentDate) ∧
        compileGenCalls gen chat mainQuery subReports currentDate = 2)) ∧
    (∀ f : SubReport → String,
      (∀ r ∈ subReports, chat (summaryPrompt r) = .ok (f r)) →
      summarize_reports chat subReports
          = .ok (subReports.map (fun r => ⟨r.query, pyStrip (f r)⟩))) := by
  refine ⟨?_, ?_, ?_, ?_⟩
  · intro r h
    simp [compile_final_report, compileGenCalls, compileSummarizeInvoked,
      generate_compilation, h]
  · intro e h hm
    simp [compile_final_report, compileGenCalls, compileSummarizeInvoked,
      generate_compilation, h, hm]
  · intro e h hm
    refine ⟨?_, ?_, ?_⟩
    · simp [compileSummarizeInvoked, generate_compilation, h, hm]
    · intro e2 hs
      simp [compile_final_report, generate_compilation, h, hm, hs]
    · intro srs hs
      constructor
      · simp [compile_final_report, generate_compilation, h, hm, hs]
      · simp [compileGenCalls, generate_compilation, h, hm, hs]
  · intro f hf
    unfold summarize_reports
    refine exceptMapM_ok (summarizeOne chat) (fun r => ⟨r.query, pyStrip (f r)⟩) subReports ?_
    intro r hr
    simp [summarizeOne, hf r hr]

/-- Witness for C2: with a compilation oracle that always raises a
context-length error and a summarization oracle that succeeds, the degrade
path summarizes the one sub-report, retries once (two compilation calls) and
propagates the retry error. -/
theorem compile_final_report_degrade_witness :
    compile_final_report genCtxFail chatOkSum "mq" subReports0 "May 2025"
        = .error "Maximum context length exceeded" ∧
    compileGenCalls genCtxFail chatOkSum "mq" subReports0 "May 2025" = 2 ∧
    compileSummarizeInvoked genCtxFail "mq" subReports0 "May 2025" = true := by
  have hthm := (compile_final_report_degrade genCtxFail chatOkSum "mq" subReports0 "May 2025").2.2.1
    "Maximum context length exceeded" rfl (by decide)
  have hsum : summarize_reports chatOkSum subReports0 = .ok [⟨"q1", "sum"⟩] := rfl
  have hmain := hthm.2.2 [⟨"q1", "sum"⟩] hsum
  refine ⟨?_, hmain.2, hthm.1⟩
  rw [hmain.1]
  rfl

/-! ### Helper lemmas: reranking -/

theorem simsOf_length (embed : String → List ℚ) (query : String) (chunks : List SourceDoc) :
    (simsOf embed query chunks).length = chunks.length := by
  simp [simsOf, get_all_embeddings]

theorem map_getD_finRange (l : List SourceDoc) (d : SourceDoc) {m : ℕ} (hm : m = l.length) :
    (List.finRange m).map (fun i => l.getD i.val d) = l := by
  subst hm
  apply List.ext_getElem
  · simp
  · intro n h1 h2
    simp only [List.getElem_map, List.getElem_finRange]
    exact List.getD_eq_getElem l d h2

/-- C8: `AIService._cosine_similarity` has no guard on the division — for a
zero-norm vector the denominator is zero, the float division is `0.0 / 0.0`,
and the result is NaN (modelled as `⊤`), not the similarity `0` the
spec requires. -/
theorem cosine_similarity_zero_norm_nan (a b : List ℚ) (h : ∀ x ∈ a, x = 0) :
    cosine_similarity a b = ⊤ := by
  have hzero : normSq a = 0 := by
    refine List.sum_eq_zero ?_
    intro x hx
    obtain ⟨y, hy, rfl⟩ := List.mem_map.mp hx
    rw [h y hy, mul_zero]
  unfold cosine_similarity
  rw [hzero]
  simp [Real.sqrt_zero]

/-- Witness for C8 at the concrete failing input `a = [0]`, `b = [1]`. -/
theorem cosine_similarity_zero_norm_nan_witness :
    (∀ x ∈ ([0] : List ℚ), x = 0) ∧ cosine_similarity [0] [1] = ⊤ :=
  ⟨by decide, cosine_similarity_zero_norm_nan [0] [1] (by decide)⟩

/-- C6 counterexample: reranking an empty chunk list does return the empty
list, but it still invokes the embedding provider — `[query] + chunk_texts`
is `[query]`, so one embedding call is made, not zero as the claim states. -/
theorem rerank_empty_counterexample :
    rerank_chunks_with_embeddings embedConst "q" [] = [] ∧
    rerankEmbedCalls "q" [] = 1 ∧ (1 : ℕ) ≠ 0 := by
  refine ⟨?_, rfl, by decide⟩
  rfl

/-- C6 amended: for every query and embedding oracle, reranking an empty
chunk list returns an empty list, but the embedding provider is invoked
exactly once (for the query itself), not zero times. -/
theorem rerank_empty_amended (embed : String → List ℚ) (query : String) :
    rerank_chunks_with_embeddings embed query [] = [] ∧
    rerankEmbedCalls query [] = 1 :=
  ⟨rfl, rfl⟩

/-- C7 amended: the order produced by `_rerank_chunks_with_embeddings` is a
permutation of the input that is weakly similarity-descending, but ties are
*not* broken by original input order: `np.argsort`'s default quicksort is
documented as unstable, so the order within a tied run is
implementation-defined — and at the two-chunk tie of the counterexample
(small enough that NumPy's introsort runs its stable insertion sort) the
trailing `[::-1]` reversal demonstrably puts the *later* chunk first.  This
theorem states the tie-order-independent part: the ranked indices carry
similarities in weakly descending order and the output is a permutation of
the input. -/
theorem rerank_similarity_descending (embed : String → List ℚ) (query : String)
    (chunks : List SourceDoc) :
    (rerank_chunks_with_embeddings embed query chunks).Perm chunks ∧
    List.Pairwise
      (fun i j => (simsOf embed query chunks).get j ≤ (simsOf embed query chunks).get i)
      (rerankIndices embed query chunks) := by
  constructor
  · have hperm : (rerankIndices embed query chunks).Perm
        (List.finRange (simsOf embed query chunks).length) :=
      (List.reverse_perm _).trans (List.perm_insertionSort _ _)
    have hmap := hperm.map (fun i => chunks.getD i.val (⟨"", "", ""⟩ : SourceDoc))
    rw [map_getD_finRange chunks _ (simsOf_length embed query chunks)] at hmap
    exact hmap
  · have hs : List.Sorted (sortKeyRel (simsOf embed query chunks))
        (List.insertionSort (sortKeyRel (simsOf embed query chunks))
          (List.finRange (simsOf embed query chunks).length)) :=
      List.sorted_insertionSort _ _
    have himp : ∀ {i j : Fin (simsOf embed query chunks).length},
        sortKeyRel (simsOf embed query chunks) i j →
        (simsOf embed query chunks).get i ≤ (simsOf embed query chunks).get j := by
      intro i j hij
      rcases hij with h | ⟨h, -⟩
      · exact le_of_lt h
      · exact le_of_eq h
    exact List.pairwise_reverse.mpr (hs.imp himp)

/-- C7 counterexample: with a constant embedding oracle both chunks get the
same similarity, yet `_rerank_chunks_with_embeddings` returns them in
*reversed* input order — `[docB, docA]` — contradicting the claimed
earlier-first (stable descending) tie-break.  At this two-element input the
model is exact: NumPy's introsort runs its stable insertion sort below 16
elements, so `np.argsort([s, s])` is `[0, 1]` and the `[::-1]` reversal
yields `[1, 0]`. -/
theorem rerank_tie_counterexample :
    simsOf embedConst "q" [docA, docB]
        = [cosine_similarity [1] [1], cosine_similarity [1] [1]] ∧
    rerank_chunks_with_embeddings embedConst "q" [docA, docB] = [docB, docA] ∧
    ([docB, docA] : List SourceDoc) ≠ [docA, docB] := by
  refine ⟨rfl, ?_, by decide⟩
  have h01 : sortKeyRel (simsOf embedConst "q" [docA, docB]) ⟨0, by decide⟩ ⟨1, by decide⟩ :=
    Or.inr ⟨rfl, by decide⟩
  have hfin : List.finRange (simsOf embedConst "q" [docA, docB]).length
      = [⟨0, by decide⟩, ⟨1, by decide⟩] := by decide
  show (List.insertionSort (sortKeyRel (simsOf embedConst "q" [docA, docB]))
      (List.finRange (simsOf embedConst "q" [docA, docB]).length)).reverse.map
      (fun i => ([docA, docB] : List SourceDoc).getD i.val ⟨"", "", ""⟩) = [docB, docA]
  rw [hfin]
  have h1 : List.insertionSort (sortKeyRel (simsOf embedConst "q" [docA, docB]))
      [(⟨1, by decide⟩ : Fin (simsOf embedConst "q" [docA, docB]).length)]
      = [⟨1, by decide⟩] := rfl
  have hins : List.insertionSort (sortKeyRel (simsOf embedConst "q" [docA, docB]))
      [⟨0, by decide⟩, ⟨1, by decide⟩] = [⟨0, by decide⟩, ⟨1, by decide⟩] := by
    show List.orderedInsert (sortKeyRel (simsOf embedConst "q" [docA, docB])) ⟨0, by decide⟩
        (List.insertionSort (sortKeyRel (simsOf embedConst "q" [docA, docB]))
          [⟨1, by decide⟩]) = _
    rw [h1]
    exact List.orderedInsert_of_le _ _ h01
  rw [hins]
  rfl
